import Mathlib

/-
  Shallow embedding of the ImgAPICacher repository (a small HTTP image
  proxy/cache written in Go).  The repository sources hold three variants of
  the program; the embedding below follows the most recent variant
  (src/unnamed/part_000, second half): Config, getExtension, getImgURL,
  getImgExtension, isImage, retrieveRemote and handleRequest.  The random-pick
  loop of the two older variants (src/ImgAPICacher.go and the first half of
  src/unnamed/part_000), which removes files from disk but never from the
  listing, is embedded separately as pickLoopOldFuel for comparison.

  Strings are modelled as lists of characters.  Effects (network, clock,
  filesystem errors, random numbers, the image transcoder) are supplied as
  explicit oracle environments, so every definition is executable.
-/

set_option autoImplicit false

/-- Strings from the Go source are modelled as lists of characters. -/
abbrev Str := List Char

/-- Convert a Lean string literal to the character-list representation. -/
def str (s : String) : Str := s.data

/-- Character-wise lowering, modelling strings.ToLower on ASCII data. -/
def lowerStr (s : Str) : Str := s.map Char.toLower

/- ------------------------------------------------------------------
   getExtension (maps a Content-Type to a file extension)

   func getExtension(contentType string) string {
     if contentType == "image/jpeg" { return "jpg" }
     if contentType == "image/png" { return "png" }
     return ""
   }
   ------------------------------------------------------------------ -/

def getExtension (contentType : Str) : Str :=
  if contentType = str "image/jpeg" then str "jpg"
  else if contentType = str "image/png" then str "png"
  else []

/- ------------------------------------------------------------------
   getImgExtension

   pattern := regexp.MustCompile(OPEN .+\.(?i)(jpg|jpeg|png)$ CLOSE)
   match := pattern.FindStringSubmatch(filename)
   if len(match) >= 2 { return strings.ToLower(match[1]) }
   return ""

   RE2 semantics: the dot class excludes the newline character and the
   dollar anchors at the end of the text, so the pattern matches exactly
   when the text ends in a literal dot followed (case-insensitively) by
   jpg, jpeg or png, with at least one non-newline character directly in
   front of the dot.  The capture is that extension, lowered.
   ------------------------------------------------------------------ -/

/-- Checks, on the REVERSED text r, for the suffix dot-plus-extension demanded
by the getImgExtension pattern: r must start with the reversed extension
(compared case-insensitively against the lowercase pattern pat), then a
literal dot, then at least one further character that is not a newline. -/
def extSuffixCheck (pat : Str) (r : Str) : Bool :=
  ((r.take pat.length).map Char.toLower == pat.reverse) &&
  (r.get? pat.length == some '.') &&
  (match r.get? (pat.length + 1) with
   | some c => c != '\n'
   | none => false)

def getImgExtension (filename : Str) : Str :=
  let r := filename.reverse
  if extSuffixCheck (str "jpg") r then str "jpg"
  else if extSuffixCheck (str "jpeg") r then str "jpeg"
  else if extSuffixCheck (str "png") r then str "png"
  else []

/- ------------------------------------------------------------------
   getImgURL

   response = strings.Replace(response, ESCAPED-SLASH, "/", -1)
   pattern := regexp.MustCompile(https?://.+\.(?i)(jpg|jpeg|png))
   return pattern.FindString(response)

   FindString scans start positions left to right; at a position the
   scheme must match literally, then the greedy dot-plus picks the last
   candidate dot (within the newline-free run) whose continuation starts
   (case-insensitively) with jpg, jpeg or png, the alternatives tried in
   that order.
   ------------------------------------------------------------------ -/

/-- strings.Replace(response, backslash-slash, "/", -1): replace every
non-overlapping occurrence of the two-character sequence backslash slash
by a single slash, scanning left to right. -/
def stripEscapedSlashes : Str → Str
  | [] => []
  | '\\' :: '/' :: rest => '/' :: stripEscapedSlashes rest
  | c :: rest => c :: stripEscapedSlashes rest

/-- The alternation (jpg|jpeg|png), case-insensitive, matched at the front of
s; returns the length of the first alternative that matches. -/
def extPrefixCI (s : Str) : Option Nat :=
  if (str "jpg").isPrefixOf (lowerStr (s.take 3)) then some 3
  else if (str "jpeg").isPrefixOf (lowerStr (s.take 4)) then some 4
  else if (str "png").isPrefixOf (lowerStr (s.take 3)) then some 3
  else none

/-- The scheme part https?:// matched literally at the front of s
(the optional s is greedy); returns its length. -/
def schemeLen (s : Str) : Option Nat :=
  if (str "https://").isPrefixOf s then some 8
  else if (str "http://").isPrefixOf s then some 7
  else none

/-- Greedy search for the body of the URL pattern in rest (the text after the
scheme): the largest k with 1 <= k, all of rest[0..k-1] free of newlines,
rest[k] a literal dot and an extension alternative matching at rest[k+1..].
Returns that k together with the matched alternative length. -/
def findLastDotExt (rest : Str) : Option (Nat × Nat) :=
  let limit := (rest.takeWhile (fun c => c ≠ '\n')).length
  (List.range limit).reverse.findSome? (fun k =>
    if 1 ≤ k ∧ rest.get? k = some '.' then
      (extPrefixCI (rest.drop (k + 1))).map (fun L => (k, L))
    else none)

/-- The whole URL pattern matched at the front of s. -/
def matchImgURLAt (s : Str) : Option Str :=
  match schemeLen s with
  | none => none
  | some n =>
    let rest := s.drop n
    match findLastDotExt rest with
    | none => none
    | some (k, L) =>
      some (s.take n ++ rest.take k ++ '.' :: (rest.drop (k + 1)).take L)

/-- FindString: try each start position from the left, return the first
match, or the empty string when there is none. -/
def findImgURL : Str → Str
  | [] => []
  | s@(_ :: rest) =>
    match matchImgURLAt s with
    | some m => m
    | none => findImgURL rest

def getImgURL (response : Str) : Str :=
  findImgURL (stripEscapedSlashes response)

/- ------------------------------------------------------------------
   isImage

   Latest variant: extension check, then open the file and read a
   512-byte buffer (readability is an oracle here).  The two older
   variants only check the extension (isImage_v1).
   ------------------------------------------------------------------ -/

/-- isImage of the latest variant: the extension must be supported and the
file must open and read successfully (validFile is the filesystem oracle for
the open-and-read step). -/
def isImage (validFile : Str → Bool) (filename : Str) : Bool :=
  !(getImgExtension filename).isEmpty && validFile filename

/-- isImage of the two older variants: extension check only. -/
def isImage_v1 (filename : Str) : Bool :=
  !(getImgExtension filename).isEmpty

/- ------------------------------------------------------------------
   Data model: Config, the cache-folder filesystem, directory entries.
   ------------------------------------------------------------------ -/

/-- Mode is a plain string in the source ("local" / "remote"). -/
def Local : Str := str "local"

def Remote : Str := str "remote"

/-- The Config struct of the latest variant (JSON-persisted). -/
structure Config where
  ListenPort : Int
  LogFileName : Str
  Mode : Str
  CacheFolder : Str
  CacheTmpFolder : Str
  UpdateInterval : Int
  MaxCacheSize : Int
  ImageQuality : Int
  Remotes : List Str
deriving DecidableEq, Repr

/-- os.PathSeparator on the deployment platform (Linux). -/
def pathSep : Char := '/'

/-- A directory entry as returned by ioutil.ReadDir: name and IsDir flag. -/
structure FsEntry where
  name : Str
  isDir : Bool
deriving DecidableEq, Repr

/-- State of the cache folder on disk: whether the folder and its tmp
subfolder exist, the regular files directly in the cache folder
(name, content) and the files inside the tmp subfolder. -/
structure FileSys where
  cacheDirExists : Bool
  tmpDirExists : Bool
  cacheFiles : List (Str × Str)
  tmpFiles : List (Str × Str)
deriving DecidableEq, Repr

/-- Find the content of a file by name. -/
def lookupFile : List (Str × Str) → Str → Option Str
  | [], _ => none
  | p :: ps, n => if p.1 = n then some p.2 else lookupFile ps n

/-- Create or truncate-and-rewrite a file (os.Create / ioutil.WriteFile). -/
def setFile : List (Str × Str) → Str → Str → List (Str × Str)
  | [], n, d => [(n, d)]
  | p :: ps, n, d => if p.1 = n then (n, d) :: ps else p :: setFile ps n d

/-- Delete a file by name (os.Remove). -/
def removeFile : List (Str × Str) → Str → List (Str × Str)
  | [], _ => []
  | p :: ps, n => if p.1 = n then removeFile ps n else p :: removeFile ps n

/-- The listing ioutil.ReadDir(config.CacheFolder) produces: the regular
cache files plus, when it exists, the tmp subfolder as a directory entry.
(ReadDir sorts by name; none of the verified properties depend on the
order, so the stored order is used.) -/
def readCacheDir (cfg : Config) (fs : FileSys) : List FsEntry :=
  fs.cacheFiles.map (fun p => ⟨p.1, false⟩) ++
    (if fs.tmpDirExists then [⟨cfg.CacheTmpFolder, true⟩] else [])

/-- len(files) of that listing, the quantity compared against MaxCacheSize. -/
def cacheDirCount (cfg : Config) (fs : FileSys) : Nat :=
  (readCacheDir cfg fs).length

/-- Delete the named files from the cache folder (the lazy cleanup the
request handler performs on entries failing the image check). -/
def removeNames (fs : FileSys) (names : List Str) : FileSys :=
  { fs with cacheFiles := fs.cacheFiles.filter (fun p => !(names.contains p.1)) }

/- ------------------------------------------------------------------
   The random-pick loop of the local-serve attempt.

   Latest variant (the listing shrinks by one entry per iteration):

     fileIndex := rand.Intn(len(files))
     for !isImage(files[fileIndex].Name()) && len(files) > 0 {
       if files[fileIndex].IsDir() {
         files = append(files[:fileIndex], files[fileIndex+1:]...)
         if len(files) == 0 { break }
         fileIndex = rand.Intn(len(files)); continue
       }
       os.Remove(cacheFolder + sep + files[fileIndex].Name())
       files = append(files[:fileIndex], files[fileIndex+1:]...)
       if len(files) == 0 { break }
       fileIndex = rand.Intn(len(files))
     }
     if len(files) == 0 || !isImage(files[fileIndex].Name()) { no image }
     else { serve files[fileIndex] }

   picks is the stream of rand.Intn results (reduced modulo the current
   length); ctr indexes into it.  The fuel argument bounds the number of
   iterations; pickLoop_terminates shows fuel = files.length suffices.
   ------------------------------------------------------------------ -/

/-- Result of the pick loop: the served file name (when a valid image was
found) and the file names removed from disk along the way. -/
structure PickResult where
  servedName : Option Str
  removed : List Str
deriving DecidableEq, Repr

def pickLoopFuel (isImg : Str → Bool) (picks : Nat → Nat) :
    Nat → Nat → List FsEntry → Nat → List Str → Option PickResult
  | 0, _, _, _, _ => none
  | fuel + 1, ctr, files, idx, removed =>
    match files.get? idx with
    | none => none
    | some f =>
      if isImg f.name then some ⟨some f.name, removed⟩
      else if f.isDir then
        let files2 := files.eraseIdx idx
        if files2.length = 0 then some ⟨none, removed⟩
        else pickLoopFuel isImg picks fuel (ctr + 1) files2
          (picks ctr % files2.length) removed
      else
        let files2 := files.eraseIdx idx
        if files2.length = 0 then some ⟨none, removed ++ [f.name]⟩
        else pickLoopFuel isImg picks fuel (ctr + 1) files2
          (picks ctr % files2.length) (removed ++ [f.name])

/- ------------------------------------------------------------------
   The same loop in the two older variants removes the picked file from
   disk but never from the listing:

     file := files[rand.Intn(len(files))]
     for !isImage(file.Name()) {
       os.Remove(cacheFolder + sep + file.Name())
       file = files[rand.Intn(len(files))]
     }
   ------------------------------------------------------------------ -/

def pickLoopOldFuel (isImg : Str → Bool) (picks : Nat → Nat) :
    Nat → Nat → List FsEntry → Nat → Option Str
  | 0, _, _, _ => none
  | fuel + 1, ctr, files, idx =>
    match files.get? idx with
    | none => none
    | some f =>
      if isImg f.name then some f.name
      else pickLoopOldFuel isImg picks fuel (ctr + 1) files
        (picks ctr % files.length)

/- ------------------------------------------------------------------
   retrieveRemote (latest variant, src/unnamed/part_000 second half).

   Effects are supplied by a RemoteEnv oracle.  Control flow, in source
   order:
     timestamp = time.Now().Unix()            -- AT THE START
     remote := Remotes[rand.Intn(len)]
     response := http.Get(remote)             -- error: log, return
     status must be 200/302/301               -- else: log, return
     extension := getExtension(Content-Type)
     if extension == "" {
       body := ReadAll(response.Body)         -- error: log, return
       imgURL = getImgURL(body); extension = getImgExtension(imgURL)
     } else { imgURL = remote }
     filenameUncompressed := cache/tmp/<nano>.<extension>
     mkdir cache folder if missing            -- error: log.Fatalln (exits!)
     mkdir tmp folder if missing              -- error: log.Fatalln (exits!)
     downloadFile(filenameUncompressed, imgURL)
       (os.Create first - an empty file appears even when the GET fails)
     data := ReadFile(filenameUncompressed)   -- error: log, return
     data, _ = compressImage(data)            -- error overwritten, ignored
     WriteFile(cache/<nano2>.jpg, data)       -- error: log, return
     os.Remove(filenameUncompressed)          -- error: log, return
     if MaxCacheSize != 0 {
       files := ReadDir(cacheFolder)          -- error: log, return
       if len(files) >= MaxCacheSize { Mode = local; writeConfig }
     }
     Fprintf(w, "http://%s/%s", host, filenameCompressed with backslashes
       replaced by slashes)
   ------------------------------------------------------------------ -/

/-- Oracle environment for one retrieveRemote run: clock values, random
pick, network responses, transcoder output and filesystem success flags. -/
structure RemoteEnv where
  nowUnix : Int
  remotePick : Nat
  httpGet : Str → Option (Nat × Str × Str)
  readBodyOk : Bool
  nanoTmp : Str
  nanoOut : Str
  mkdirCacheOk : Bool
  mkdirTmpOk : Bool
  createOk : Bool
  fetch : Str → Option Str
  readFileOk : Bool
  compress : Str → Str
  writeOk : Bool
  removeOk : Bool
  listOk : Bool

/-- Where a retrieveRemote run stopped. -/
inductive RRStep where
  | httpGet | status | readBody | download | readFile | writeFile
  | removeTmp | listDir
deriving DecidableEq, Repr

inductive RROutcome where
  | ok
  | errAt (s : RRStep)
  | fatalMkdirCache
  | fatalMkdirTmp
deriving DecidableEq, Repr

/-- Post-state of a retrieveRemote run: the (possibly mode-flipped) config,
the cache filesystem, the global timestamp, the response body written (none
on every failure path), the outcome marker and whether writeConfig ran. -/
structure RRState where
  cfg : Config
  fs : FileSys
  timestamp : Int
  body : Option Str
  outcome : RROutcome
  persisted : Bool
deriving DecidableEq, Repr

/-- strings.Replace(s, backslash, "/", -1) applied to the served path. -/
def replaceBackslash (s : Str) : Str :=
  s.map (fun c => if c = '\\' then '/' else c)

/-- The body Fprintf writes on fetch success. -/
def urlBody (hostname : Str) (cfg : Config) (outName : Str) : Str :=
  str "http://" ++ hostname ++ '/' ::
    replaceBackslash (cfg.CacheFolder ++ pathSep :: outName)

def mkRRErr (cfg : Config) (fs : FileSys) (ts : Int) (s : RRStep) : RRState :=
  ⟨cfg, fs, ts, none, .errAt s, false⟩

/-- The tail of retrieveRemote once imgURL and extension are determined:
folder creation, download, transcode, publish, tmp cleanup, cache-size
check, response write. -/
def afterURL (hostname : Str) (cfg : Config) (fs : FileSys) (ts : Int)
    (env : RemoteEnv) (imgURL extension : Str) : RRState :=
  let tmpName := env.nanoTmp ++ '.' :: extension
  if ¬fs.cacheDirExists ∧ ¬env.mkdirCacheOk then
    ⟨cfg, fs, ts, none, .fatalMkdirCache, false⟩
  else
    let fs1 := { fs with cacheDirExists := true }
    if ¬fs1.tmpDirExists ∧ ¬env.mkdirTmpOk then
      ⟨cfg, fs1, ts, none, .fatalMkdirTmp, false⟩
    else
      let fs2 := { fs1 with tmpDirExists := true }
      if ¬env.createOk then mkRRErr cfg fs2 ts .download
      else
        let fs3 := { fs2 with tmpFiles := setFile fs2.tmpFiles tmpName [] }
        match env.fetch imgURL with
        | none => mkRRErr cfg fs3 ts .download
        | some data =>
          let fs4 := { fs3 with tmpFiles := setFile fs3.tmpFiles tmpName data }
          if ¬env.readFileOk then mkRRErr cfg fs4 ts .readFile
          else
            let out := env.compress data
            let outName := env.nanoOut ++ str ".jpg"
            if ¬env.writeOk then mkRRErr cfg fs4 ts .writeFile
            else
              let fs5 := { fs4 with cacheFiles := setFile fs4.cacheFiles outName out }
              if ¬env.removeOk then mkRRErr cfg fs5 ts .removeTmp
              else
                let fs6 := { fs5 with tmpFiles := removeFile fs5.tmpFiles tmpName }
                if cfg.MaxCacheSize ≠ 0 then
                  if ¬env.listOk then mkRRErr cfg fs6 ts .listDir
                  else if (cacheDirCount cfg fs6 : Int) ≥ cfg.MaxCacheSize then
                    ⟨{ cfg with Mode := Local }, fs6, ts,
                      some (urlBody hostname cfg outName), .ok, true⟩
                  else ⟨cfg, fs6, ts, some (urlBody hostname cfg outName), .ok, false⟩
                else ⟨cfg, fs6, ts, some (urlBody hostname cfg outName), .ok, false⟩

def retrieveRemote (hostname : Str) (cfg : Config) (fs : FileSys) (ts : Int)
    (env : RemoteEnv) : RRState :=
  let ts1 := env.nowUnix
  let remote := cfg.Remotes.getD (env.remotePick % cfg.Remotes.length) []
  match env.httpGet remote with
  | none => mkRRErr cfg fs ts1 .httpGet
  | some (status, contentType, body) =>
    if status ≠ 200 ∧ status ≠ 302 ∧ status ≠ 301 then mkRRErr cfg fs ts1 .status
    else
      let extension := getExtension contentType
      if ¬extension.isEmpty then afterURL hostname cfg fs ts1 env remote extension
      else if ¬env.readBodyOk then mkRRErr cfg fs ts1 .readBody
      else afterURL hostname cfg fs ts1 env (getImgURL body)
        (getImgExtension (getImgURL body))

/- ------------------------------------------------------------------
   handleRequest (latest variant).
   ------------------------------------------------------------------ -/

/-- Accumulator pass for splitPathGo: cur is the current segment, reversed. -/
def splitPathAux : Str → Str → List Str
  | [], cur => if cur.isEmpty then [] else [cur.reverse]
  | c :: rest, cur =>
    if c = '/' then
      if cur.isEmpty then splitPathAux rest [] else cur.reverse :: splitPathAux rest []
    else splitPathAux rest (c :: cur)

/-- Split a filesystem path into its non-empty slash-separated components
(POSIX resolution collapses repeated slashes). -/
def splitPathGo (p : Str) : List Str := splitPathAux p []

/-- os.Stat plus file read for the path the image-serving branch builds:
resolves the literal path (which contains a doubled slash) against the
modelled cache folder.  Directories are not served (the extension gate in
front of this lookup rejects the tmp folder in any realistic config). -/
def statLookup (cfg : Config) (fs : FileSys) (p : Str) : Option Str :=
  if ¬fs.cacheDirExists then none
  else
    match splitPathGo p with
    | [d, n] => if d = cfg.CacheFolder then lookupFile fs.cacheFiles n else none
    | [d, t, n] =>
      if d = cfg.CacheFolder ∧ t = cfg.CacheTmpFolder ∧ fs.tmpDirExists then
        lookupFile fs.tmpFiles n
      else none
    | _ => none

/-- Oracle environment for the local-serve attempt: ReadDir success, the
stream of rand.Intn results, the open-and-read check inside isImage, and
the clock value at the freshness decision. -/
structure LocalEnv where
  readDirOk : Bool
  picks : Nat → Nat
  validFile : Str → Bool
  nowUnix : Int

/-- The local-serve attempt of the request handler: list the cache folder,
pick random entries, lazily dropping entries that fail the image check.
Returns the served file name (if any) and the names removed from disk. -/
def localServeAttempt (cfg : Config) (fs : FileSys) (lenv : LocalEnv) :
    Option Str × List Str :=
  if ¬lenv.readDirOk then (none, [])
  else
    let files := readCacheDir cfg fs
    if files.length = 0 then (none, [])
    else
      match pickLoopFuel (isImage lenv.validFile) lenv.picks files.length 1
          files (lenv.picks 0 % files.length) [] with
      | none => (none, [])
      | some pr => (pr.servedName, pr.removed)

/-- The body the handler writes when serving a local image. -/
def urlStr (hostname cacheFolder name : Str) : Str :=
  str "http://" ++ hostname ++ str "/" ++ cacheFolder ++ str "/" ++ name

/-- Outcome of the root path: response body written to this request, the
locally served file (if any), whether retrieveRemote ran and whether it ran
detached (its write to the response races the handler return and is
discarded here, following the contract), files lazily removed, and the
remote run's post-state. -/
structure RootResult where
  body : Option Str
  servedLocal : Option Str
  remoteCalled : Bool
  background : Bool
  removed : List Str
  rr : Option RRState
deriving DecidableEq, Repr

inductive HResult where
  | methodNotAllowed
  | notFound
  | fileServed (content : Str)
  | root (res : RootResult)
deriving DecidableEq, Repr

def handleRequest (method path hostname : Str) (cfg : Config) (fs : FileSys)
    (ts : Int) (lenv : LocalEnv) (renv : RemoteEnv) : HResult :=
  if method ≠ str "GET" then .methodNotAllowed
  else if path = str "/favicon.ico" then .notFound
  else if (str "/" ++ cfg.CacheFolder ++ str "/").isPrefixOf path then
    if getImgExtension path = [] then .notFound
    else
      match statLookup cfg fs
          (cfg.CacheFolder ++ pathSep :: path.drop (cfg.CacheFolder.length + 1)) with
      | some content => .fileServed content
      | none => .notFound
  else if path ≠ str "/" then .notFound
  else
    match (localServeAttempt cfg fs lenv).1 with
    | some name =>
      if cfg.Mode = Local ∨ lenv.nowUnix - ts < cfg.UpdateInterval then
        .root ⟨some (urlStr hostname cfg.CacheFolder name), some name, false,
          false, (localServeAttempt cfg fs lenv).2, none⟩
      else
        .root ⟨some (urlStr hostname cfg.CacheFolder name), some name, true,
          true, (localServeAttempt cfg fs lenv).2,
          some (retrieveRemote hostname cfg
            (removeNames fs (localServeAttempt cfg fs lenv).2) ts renv)⟩
    | none =>
      let st := retrieveRemote hostname cfg
        (removeNames fs (localServeAttempt cfg fs lenv).2) ts renv
      .root ⟨st.body, none, true, false, (localServeAttempt cfg fs lenv).2, some st⟩

/-- The three supported (lowercase) extensions. -/
def extPats : List Str := [str "jpg", str "jpeg", str "png"]


/- ------------------------------------------------------------------
   Concrete fixtures used to evaluate the embedding on closed inputs.
   ------------------------------------------------------------------ -/

/-- A concrete configuration (the shipped defaults, MaxCacheSize 100). -/
def cfg0 : Config :=
  { ListenPort := 8080, LogFileName := [], Mode := Remote,
    CacheFolder := str "cache", CacheTmpFolder := str "tmp",
    UpdateInterval := 10, MaxCacheSize := 100, ImageQuality := 60,
    Remotes := [str "https://r1", str "https://r2"] }

/-- cfg0 already flipped to local mode. -/
def cfgLocal : Config := { cfg0 with Mode := Local }

/-- cfg0 with a cache cap of 2. -/
def cfgMax2 : Config := { cfg0 with MaxCacheSize := 2 }

/-- Oracle for a fully successful remote fetch of an image response. -/
def env0 : RemoteEnv :=
  { nowUnix := 1000, remotePick := 0,
    httpGet := fun _ => some (200, str "image/jpeg", []),
    readBodyOk := true, nanoTmp := str "111", nanoOut := str "222",
    mkdirCacheOk := true, mkdirTmpOk := true, createOk := true,
    fetch := fun u => if u.isEmpty then none else some (str "IMG"),
    readFileOk := true, compress := fun d => d, writeOk := true,
    removeOk := true, listOk := true }

/-- Oracle whose upstream GET fails outright. -/
def envFail : RemoteEnv := { env0 with httpGet := fun _ => none }

/-- Oracle returning a non-image response containing no image URL. -/
def envNoURL : RemoteEnv :=
  { env0 with httpGet := fun _ => some (200, str "text/html", str "no image link") }

/-- Oracle on which creating the cache folder fails. -/
def envMkdirFail : RemoteEnv := { env0 with mkdirCacheOk := false }

/-- Cache folder and tmp subfolder exist, both empty. -/
def fsEmpty : FileSys := ⟨true, true, [], []⟩

/-- Cache folder exists and is empty; the tmp subfolder does not exist. -/
def fsNoTmp : FileSys := ⟨true, false, [], []⟩

/-- Cache folder with one valid image and no tmp subfolder. -/
def fsOne : FileSys := ⟨true, false, [(str "a.jpg", str "D")], []⟩

/-- Local-serve oracle: ReadDir succeeds, picks always index 0, every file
readable, clock at 5. -/
def lenv0 : LocalEnv := ⟨true, fun _ => 0, fun _ => true, 5⟩

/- ==================================================================
   Helper lemmas: the extension suffix machinery.
   ================================================================== -/

lemma drop_eq_cons_of_get? {α : Type} : ∀ (l : List α) (n : Nat) (a : α),
    l.get? n = some a → l.drop n = a :: l.drop (n + 1)
  | [], n, a => by simp
  | x :: xs, 0, a => by simp
  | x :: xs, n + 1, a => by
    intro h
    simpa using drop_eq_cons_of_get? xs n a h

lemma extSuffixCheck_sound (pat f : Str)
    (h : extSuffixCheck pat f.reverse = true) :
    ∃ a c e, f = a ++ c :: '.' :: e ∧ c ≠ '\n' ∧ e.map Char.toLower = pat := by
  unfold extSuffixCheck at h
  simp only [Bool.and_eq_true, beq_iff_eq] at h
  obtain ⟨⟨h1, h2⟩, h3⟩ := h
  rcases hg : f.reverse.get? (pat.length + 1) with _ | c0
  · rw [hg] at h3; simp at h3
  · rw [hg] at h3
    simp only [bne_iff_ne, ne_eq] at h3
    have hd1 : f.reverse.drop pat.length = '.' :: f.reverse.drop (pat.length + 1) :=
      drop_eq_cons_of_get? _ _ _ h2
    have hd2 : f.reverse.drop (pat.length + 1) = c0 :: f.reverse.drop (pat.length + 2) :=
      drop_eq_cons_of_get? _ _ _ hg
    have hsplit : f.reverse =
        f.reverse.take pat.length ++ '.' :: c0 :: f.reverse.drop (pat.length + 2) := by
      conv_lhs => rw [← List.take_append_drop pat.length f.reverse]
      rw [hd1, hd2]
    refine ⟨(f.reverse.drop (pat.length + 2)).reverse, c0,
      (f.reverse.take pat.length).reverse, ?_, h3, ?_⟩
    · conv_lhs => rw [← List.reverse_reverse f, hsplit]
      simp
    · rw [List.map_reverse, h1, List.reverse_reverse]

lemma extSuffixCheck_complete (pat a e : Str) (c : Char) (hc : c ≠ '\n')
    (he : e.map Char.toLower = pat) :
    extSuffixCheck pat (e.reverse ++ '.' :: c :: a.reverse) = true := by
  have hlen : e.length = pat.length := by rw [← he]; simp
  unfold extSuffixCheck
  have hlen2 : e.reverse.length = pat.length := by simp [hlen]
  have ht : (e.reverse ++ '.' :: c :: a.reverse).take pat.length = e.reverse := by
    rw [← hlen2]; exact List.take_left _ _
  have hg1 : (e.reverse ++ '.' :: c :: a.reverse).get? pat.length = some '.' := by
    rw [← hlen2]
    rw [List.get?_append_right (Nat.le_refl _)]
    simp
  have hg2 : (e.reverse ++ '.' :: c :: a.reverse).get? (pat.length + 1) = some c := by
    rw [← hlen2]
    rw [List.get?_append_right (Nat.le_succ _)]
    simp
  rw [ht, hg1, hg2]
  simp [List.map_reverse, he, hc]

lemma extSuffixCheck_jpg_of_jpeg (a e : Str) (c : Char)
    (he : e.map Char.toLower = str "jpeg") :
    extSuffixCheck (str "jpg") (e.reverse ++ '.' :: c :: a.reverse) = false := by
  rcases e with _ | ⟨x1, e⟩
  · simp [str] at he
  rcases e with _ | ⟨x2, e⟩
  · simp [str] at he
  rcases e with _ | ⟨x3, e⟩
  · simp [str] at he
  rcases e with _ | ⟨x4, e⟩
  · simp [str] at he
  rcases e with _ | ⟨x5, e⟩
  swap
  · simp [str] at he
  simp only [str, List.map_cons, List.map_nil] at he
  have h3 : x3.toLower = 'e' := by
    have := congrArg (fun l => l.get? 2) he
    simpa using this
  unfold extSuffixCheck
  simp [str, h3]

lemma extSuffixCheck_jpg_of_png (a e : Str) (c : Char)
    (he : e.map Char.toLower = str "png") :
    extSuffixCheck (str "jpg") (e.reverse ++ '.' :: c :: a.reverse) = false := by
  rcases e with _ | ⟨x1, e⟩
  · simp [str] at he
  rcases e with _ | ⟨x2, e⟩
  · simp [str] at he
  rcases e with _ | ⟨x3, e⟩
  · simp [str] at he
  rcases e with _ | ⟨x4, e⟩
  swap
  · simp [str] at he
  simp only [str, List.map_cons, List.map_nil] at he
  have h2 : x2.toLower = 'n' := by
    have := congrArg (fun l => l.get? 1) he
    simpa using this
  unfold extSuffixCheck
  simp [str, h2]

lemma extSuffixCheck_jpeg_of_png (a e : Str) (c : Char)
    (he : e.map Char.toLower = str "png") :
    extSuffixCheck (str "jpeg") (e.reverse ++ '.' :: c :: a.reverse) = false := by
  rcases e with _ | ⟨x1, e⟩
  · simp [str] at he
  rcases e with _ | ⟨x2, e⟩
  · simp [str] at he
  rcases e with _ | ⟨x3, e⟩
  · simp [str] at he
  rcases e with _ | ⟨x4, e⟩
  swap
  · simp [str] at he
  simp only [str, List.map_cons, List.map_nil] at he
  have h2 : x2.toLower = 'n' := by
    have := congrArg (fun l => l.get? 1) he
    simpa using this
  unfold extSuffixCheck
  simp [str, h2]

lemma getImgExtension_decomp (pat a e : Str) (c : Char) (hc : c ≠ '\n')
    (hpat : pat ∈ extPats) (he : e.map Char.toLower = pat) :
    getImgExtension (a ++ c :: '.' :: e) = pat := by
  unfold getImgExtension
  simp only [extPats, List.mem_cons, List.not_mem_nil, or_false] at hpat
  have hrev : (a ++ c :: '.' :: e).reverse = e.reverse ++ '.' :: c :: a.reverse := by
    simp
  rw [hrev]
  rcases hpat with h | h | h
  · subst h
    rw [if_pos (extSuffixCheck_complete _ a e c hc he)]
  · subst h
    rw [if_neg, if_pos (extSuffixCheck_complete _ a e c hc he)]
    simp [extSuffixCheck_jpg_of_jpeg a e c he]
  · subst h
    rw [if_neg, if_neg, if_pos (extSuffixCheck_complete _ a e c hc he)]
    · simp [extSuffixCheck_jpeg_of_png a e c he]
    · simp [extSuffixCheck_jpg_of_png a e c he]

lemma getImgExtension_sound (f : Str) (h : getImgExtension f ≠ []) :
    ∃ a c e, f = a ++ c :: '.' :: e ∧ c ≠ '\n' ∧
      e.map Char.toLower = getImgExtension f ∧ getImgExtension f ∈ extPats := by
  unfold getImgExtension at h ⊢
  by_cases h1 : extSuffixCheck (str "jpg") f.reverse = true
  · obtain ⟨a, c, e, hf, hc, he⟩ := extSuffixCheck_sound _ _ h1
    refine ⟨a, c, e, hf, hc, ?_, ?_⟩ <;> simp [h1, he, extPats]
  · by_cases h2 : extSuffixCheck (str "jpeg") f.reverse = true
    · obtain ⟨a, c, e, hf, hc, he⟩ := extSuffixCheck_sound _ _ h2
      refine ⟨a, c, e, hf, hc, ?_, ?_⟩ <;> simp [h1, h2, he, extPats]
    · by_cases h3 : extSuffixCheck (str "png") f.reverse = true
      · obtain ⟨a, c, e, hf, hc, he⟩ := extSuffixCheck_sound _ _ h3
        refine ⟨a, c, e, hf, hc, ?_, ?_⟩ <;> simp [h1, h2, h3, he, extPats]
      · exfalso
        apply h
        simp [h1, h2, h3]

/- ==================================================================
   Helper lemmas: the URL matcher.
   ================================================================== -/

lemma prefix_take_eq (pat q : Str) (n : Nat) (hn : pat.length = n)
    (h : pat.isPrefixOf (lowerStr (q.take n)) = true) :
    (q.take n).map Char.toLower = pat := by
  have hpre := List.isPrefixOf_iff_prefix.mp h
  have h1 : (lowerStr (q.take n)).length ≤ n := by
    simp [lowerStr, List.length_take]
  have h2 : pat.length ≤ (lowerStr (q.take n)).length := hpre.length_le
  have h3 : pat = lowerStr (q.take n) := hpre.eq_of_length (by omega)
  exact h3.symm

lemma extPrefixCI_sound (d : Str) (L : Nat) (h : extPrefixCI d = some L) :
    ∃ pat, pat ∈ extPats ∧ (d.take L).map Char.toLower = pat := by
  unfold extPrefixCI at h
  by_cases h1 : (str "jpg").isPrefixOf (lowerStr (d.take 3)) = true
  · rw [if_pos h1] at h
    obtain rfl : L = 3 := by injection h with h; omega
    exact ⟨str "jpg", by simp [extPats], prefix_take_eq _ _ _ (by rfl) h1⟩
  · rw [if_neg h1] at h
    by_cases h2 : (str "jpeg").isPrefixOf (lowerStr (d.take 4)) = true
    · rw [if_pos h2] at h
      obtain rfl : L = 4 := by injection h with h; omega
      exact ⟨str "jpeg", by simp [extPats], prefix_take_eq _ _ _ (by rfl) h2⟩
    · rw [if_neg h2] at h
      by_cases h3 : (str "png").isPrefixOf (lowerStr (d.take 3)) = true
      · rw [if_pos h3] at h
        obtain rfl : L = 3 := by injection h with h; omega
        exact ⟨str "png", by simp [extPats], prefix_take_eq _ _ _ (by rfl) h3⟩
      · rw [if_neg h3] at h
        cases h

lemma findLastDotExt_sound (rest : Str) (k L : Nat)
    (h : findLastDotExt rest = some (k, L)) :
    1 ≤ k ∧ k < rest.length ∧
      (∀ c ∈ rest.take k, c ≠ '\n') ∧
      ∃ pat, pat ∈ extPats ∧ ((rest.drop (k + 1)).take L).map Char.toLower = pat := by
  unfold findLastDotExt at h
  obtain ⟨k0, hk0mem, hk0⟩ := List.exists_of_findSome?_eq_some h
  by_cases hc : 1 ≤ k0 ∧ rest.get? k0 = some '.'
  swap
  · rw [if_neg hc] at hk0; cases hk0
  rw [if_pos hc] at hk0
  rcases hL : extPrefixCI (rest.drop (k0 + 1)) with _ | L0
  · rw [hL] at hk0; cases hk0
  rw [hL] at hk0
  simp only [Option.map_some'] at hk0
  injection hk0 with hpair
  injection hpair with hk hL2
  subst hk
  subst hL2
  have hklt : k0 < (rest.takeWhile (fun c => c ≠ '\n')).length :=
    List.mem_range.mp (List.mem_reverse.mp hk0mem)
  have htw : rest.takeWhile (fun c => c ≠ '\n') =
      rest.take (rest.takeWhile (fun c => c ≠ '\n')).length :=
    List.prefix_iff_eq_take.mp (List.takeWhile_prefix _)
  have hlimle : (rest.takeWhile (fun c => c ≠ '\n')).length ≤ rest.length :=
    (List.takeWhile_prefix _).length_le
  refine ⟨hc.1, lt_of_lt_of_le hklt hlimle, ?_, extPrefixCI_sound _ _ hL⟩
  intro c hcmem
  have hsub : rest.take k0 = (rest.takeWhile (fun c => c ≠ '\n')).take k0 := by
    rw [htw, List.take_take]
    congr 1
    omega
  rw [hsub] at hcmem
  have hmem : c ∈ rest.takeWhile (fun c => c ≠ '\n') := List.mem_of_mem_take hcmem
  have := List.mem_takeWhile_imp hmem
  simpa using this

lemma matchImgURLAt_sound (s m : Str) (h : matchImgURLAt s = some m) :
    ∃ a c e pat, m = a ++ c :: '.' :: e ∧ c ≠ '\n' ∧
      e.map Char.toLower = pat ∧ pat ∈ extPats := by
  unfold matchImgURLAt at h
  rcases hs : schemeLen s with _ | n
  · rw [hs] at h; cases h
  · rw [hs] at h
    rcases hf : findLastDotExt (s.drop n) with _ | kL
    · simp only [hf] at h; cases h
    · obtain ⟨k, L⟩ := kL
      simp only [hf] at h
      injection h with hm
      obtain ⟨hk1, hklt, hnl, pat, hpat, he⟩ := findLastDotExt_sound _ _ _ hf
      have hlen : ((s.drop n).take k).length = k := by
        rw [List.length_take]
        omega
      have hne : (s.drop n).take k ≠ [] := by
        intro hnil
        rw [hnil] at hlen
        simp at hlen
        omega
      refine ⟨s.take n ++ ((s.drop n).take k).dropLast,
        ((s.drop n).take k).getLast hne, ((s.drop n).drop (k + 1)).take L, pat,
        ?_, ?_, he, hpat⟩
      · rw [← hm]
        conv_lhs =>
          rw [show (s.drop n).take k =
            ((s.drop n).take k).dropLast ++ [((s.drop n).take k).getLast hne] from
            (List.dropLast_append_getLast hne).symm]
        simp
      · exact hnl _ (List.getLast_mem hne)

lemma findImgURL_sound : ∀ (s : Str), findImgURL s ≠ [] →
    ∃ a c e pat, findImgURL s = a ++ c :: '.' :: e ∧ c ≠ '\n' ∧
      e.map Char.toLower = pat ∧ pat ∈ extPats
  | [] => by simp [findImgURL]
  | s0 :: rest => by
    intro h
    rcases hm : matchImgURLAt (s0 :: rest) with _ | m
    · rw [findImgURL, hm] at h ⊢
      exact findImgURL_sound rest h
    · rw [findImgURL, hm] at h ⊢
      exact matchImgURLAt_sound _ _ hm

/- ==================================================================
   Helper lemmas: the pick loop and the file lists.
   ================================================================== -/

lemma pickLoopFuel_served_isImg (isImg : Str → Bool) (picks : Nat → Nat) :
    ∀ (fuel ctr idx : Nat) (files : List FsEntry) (removed : List Str)
      (pr : PickResult) (n : Str),
      pickLoopFuel isImg picks fuel ctr files idx removed = some pr →
      pr.servedName = some n → isImg n = true := by
  intro fuel
  induction fuel with
  | zero => intro ctr idx files removed pr n h; cases h
  | succ fuel ih =>
    intro ctr idx files removed pr n h hn
    rw [pickLoopFuel] at h
    rcases hg : files.get? idx with _ | f
    · rw [hg] at h; cases h
    · rw [hg] at h
      dsimp only [] at h
      by_cases hi : isImg f.name = true
      · rw [if_pos hi] at h
        injection h with h
        rw [← h] at hn
        simp at hn
        rw [← hn]
        exact hi
      · rw [if_neg hi] at h
        by_cases hd : f.isDir = true
        · rw [if_pos hd] at h
          by_cases hz : (files.eraseIdx idx).length = 0
          · rw [if_pos hz] at h
            injection h with h
            rw [← h] at hn
            cases hn
          · rw [if_neg hz] at h
            exact ih _ _ _ _ _ _ h hn
        · rw [if_neg hd] at h
          by_cases hz : (files.eraseIdx idx).length = 0
          · rw [if_pos hz] at h
            injection h with h
            rw [← h] at hn
            cases hn
          · rw [if_neg hz] at h
            exact ih _ _ _ _ _ _ h hn

lemma pickLoopFuel_isSome (isImg : Str → Bool) (picks : Nat → Nat) :
    ∀ (N ctr idx : Nat) (files : List FsEntry) (removed : List Str),
      files.length = N → idx < N →
      (pickLoopFuel isImg picks N ctr files idx removed).isSome = true := by
  intro N
  induction N with
  | zero => intro ctr idx files removed hN hidx; omega
  | succ N ih =>
    intro ctr idx files removed hN hidx
    rw [pickLoopFuel]
    rcases hg : files.get? idx with _ | f
    · rw [List.get?_eq_none] at hg
      omega
    · dsimp only []
      by_cases hi : isImg f.name = true
      · rw [if_pos hi]; rfl
      · rw [if_neg hi]
        have herase : (files.eraseIdx idx).length = N := by
          rw [List.length_eraseIdx]
          rw [hN]
          simp [hidx]
        by_cases hd : f.isDir = true
        · rw [if_pos hd]
          by_cases hz : (files.eraseIdx idx).length = 0
          · rw [if_pos hz]; rfl
          · rw [if_neg hz]
            refine ih _ _ _ _ herase ?_
            rw [← herase]
            exact Nat.mod_lt _ (by omega)
        · rw [if_neg hd]
          by_cases hz : (files.eraseIdx idx).length = 0
          · rw [if_pos hz]; rfl
          · rw [if_neg hz]
            refine ih _ _ _ _ herase ?_
            rw [← herase]
            exact Nat.mod_lt _ (by omega)

lemma setFile_fresh (l : List (Str × Str)) (n d : Str)
    (h : lookupFile l n = none) : setFile l n d = l ++ [(n, d)] := by
  induction l with
  | nil => rfl
  | cons p ps ih =>
    rw [lookupFile] at h
    by_cases hp : p.1 = n
    · rw [if_pos hp] at h; cases h
    · rw [if_neg hp] at h
      rw [setFile, if_neg hp, ih h]
      simp

lemma setFile_append_last (l : List (Str × Str)) (n d d' : Str)
    (h : lookupFile l n = none) :
    setFile (l ++ [(n, d)]) n d' = l ++ [(n, d')] := by
  induction l with
  | nil => simp [setFile]
  | cons p ps ih =>
    rw [lookupFile] at h
    by_cases hp : p.1 = n
    · rw [if_pos hp] at h; cases h
    · rw [if_neg hp] at h
      rw [List.cons_append, setFile, if_neg hp, ih h]
      simp

lemma removeFile_append_last (l : List (Str × Str)) (n d : Str)
    (h : lookupFile l n = none) :
    removeFile (l ++ [(n, d)]) n = l := by
  induction l with
  | nil => simp [removeFile]
  | cons p ps ih =>
    rw [lookupFile] at h
    by_cases hp : p.1 = n
    · rw [if_pos hp] at h; cases h
    · rw [if_neg hp] at h
      rw [List.cons_append, removeFile, if_neg hp, ih h]

/- ==================================================================
   Helper lemmas: structure of retrieveRemote runs.
   ================================================================== -/

set_option maxHeartbeats 1000000 in
lemma afterURL_timestamp (hostname : Str) (cfg : Config) (fs : FileSys) (ts : Int)
    (env : RemoteEnv) (u e : Str) :
    (afterURL hostname cfg fs ts env u e).timestamp = ts := by
  unfold afterURL
  rcases hf : env.fetch u with _ | data <;> dsimp only [] <;> split_ifs <;> rfl

set_option maxHeartbeats 1000000 in
lemma afterURL_mode_cases (hostname : Str) (cfg : Config) (fs : FileSys) (ts : Int)
    (env : RemoteEnv) (u e : Str) :
    ((afterURL hostname cfg fs ts env u e).cfg = cfg ∧
     (afterURL hostname cfg fs ts env u e).persisted = false) ∨
    ((afterURL hostname cfg fs ts env u e).cfg = { cfg with Mode := Local } ∧
     (afterURL hostname cfg fs ts env u e).persisted = true ∧
     (afterURL hostname cfg fs ts env u e).outcome = .ok ∧
     cfg.MaxCacheSize ≠ 0 ∧
     (cacheDirCount cfg (afterURL hostname cfg fs ts env u e).fs : Int) ≥ cfg.MaxCacheSize) := by
  unfold afterURL
  rcases hf : env.fetch u with _ | data <;> dsimp only [] <;> split_ifs <;>
    simp_all [mkRRErr]

set_option maxHeartbeats 1000000 in
lemma afterURL_flip (hostname : Str) (cfg : Config) (fs : FileSys) (ts : Int)
    (env : RemoteEnv) (u e : Str)
    (h1 : (afterURL hostname cfg fs ts env u e).outcome = .ok)
    (h2 : cfg.MaxCacheSize ≠ 0)
    (h3 : (cacheDirCount cfg (afterURL hostname cfg fs ts env u e).fs : Int) ≥
      cfg.MaxCacheSize) :
    (afterURL hostname cfg fs ts env u e).cfg = { cfg with Mode := Local } ∧
    (afterURL hostname cfg fs ts env u e).persisted = true := by
  unfold afterURL at h1 h3 ⊢
  rcases hf : env.fetch u with _ | data <;> rw [hf] at h1 h3 <;>
    dsimp only [] at h1 h3 ⊢ <;> split_ifs at h1 h3 ⊢ <;> simp_all [mkRRErr]

set_option maxHeartbeats 1000000 in
lemma afterURL_body (hostname : Str) (cfg : Config) (fs : FileSys) (ts : Int)
    (env : RemoteEnv) (u e b : Str)
    (h : (afterURL hostname cfg fs ts env u e).body = some b) :
    b = urlBody hostname cfg (env.nanoOut ++ str ".jpg") := by
  unfold afterURL at h
  rcases hf : env.fetch u with _ | data <;> rw [hf] at h <;>
    dsimp only [] at h <;> split_ifs at h <;> simp_all [mkRRErr]

lemma retrieveRemote_cases (hostname : Str) (cfg : Config) (fs : FileSys)
    (ts : Int) (env : RemoteEnv) :
    (∃ step, retrieveRemote hostname cfg fs ts env = mkRRErr cfg fs env.nowUnix step) ∨
    (∃ u e, retrieveRemote hostname cfg fs ts env =
      afterURL hostname cfg fs env.nowUnix env u e) := by
  unfold retrieveRemote
  dsimp only []
  rcases hh : env.httpGet (cfg.Remotes.getD (env.remotePick % cfg.Remotes.length) []) with
    _ | trip
  · exact Or.inl ⟨_, rfl⟩
  · obtain ⟨st0, ct, bd⟩ := trip
    dsimp only []
    split_ifs
    · exact Or.inl ⟨_, rfl⟩
    · exact Or.inr ⟨_, _, rfl⟩
    · exact Or.inl ⟨_, rfl⟩
    · exact Or.inr ⟨_, _, rfl⟩

lemma retrieveRemote_timestamp (hostname : Str) (cfg : Config) (fs : FileSys)
    (ts : Int) (env : RemoteEnv) :
    (retrieveRemote hostname cfg fs ts env).timestamp = env.nowUnix := by
  rcases retrieveRemote_cases hostname cfg fs ts env with ⟨step, h⟩ | ⟨u, e, h⟩
  · rw [h]; rfl
  · rw [h]; exact afterURL_timestamp ..

lemma retrieveRemote_mode_cases (hostname : Str) (cfg : Config) (fs : FileSys)
    (ts : Int) (env : RemoteEnv) :
    ((retrieveRemote hostname cfg fs ts env).cfg = cfg ∧
     (retrieveRemote hostname cfg fs ts env).persisted = false) ∨
    ((retrieveRemote hostname cfg fs ts env).cfg = { cfg with Mode := Local } ∧
     (retrieveRemote hostname cfg fs ts env).persisted = true ∧
     (retrieveRemote hostname cfg fs ts env).outcome = .ok ∧
     cfg.MaxCacheSize ≠ 0 ∧
     (cacheDirCount cfg (retrieveRemote hostname cfg fs ts env).fs : Int) ≥
       cfg.MaxCacheSize) := by
  rcases retrieveRemote_cases hostname cfg fs ts env with ⟨step, h⟩ | ⟨u, e, h⟩
  · rw [h]; exact Or.inl ⟨rfl, rfl⟩
  · rw [h]; exact afterURL_mode_cases ..

lemma retrieveRemote_flip (hostname : Str) (cfg : Config) (fs : FileSys)
    (ts : Int) (env : RemoteEnv)
    (h1 : (retrieveRemote hostname cfg fs ts env).outcome = .ok)
    (h2 : cfg.MaxCacheSize ≠ 0)
    (h3 : (cacheDirCount cfg (retrieveRemote hostname cfg fs ts env).fs : Int) ≥
      cfg.MaxCacheSize) :
    (retrieveRemote hostname cfg fs ts env).cfg = { cfg with Mode := Local } ∧
    (retrieveRemote hostname cfg fs ts env).persisted = true := by
  rcases retrieveRemote_cases hostname cfg fs ts env with ⟨step, h⟩ | ⟨u, e, h⟩
  · rw [h] at h1; cases h1
  · rw [h] at h1 h3 ⊢; exact afterURL_flip _ _ _ _ _ _ _ h1 h2 h3

lemma retrieveRemote_body (hostname : Str) (cfg : Config) (fs : FileSys)
    (ts : Int) (env : RemoteEnv) (b : Str)
    (h : (retrieveRemote hostname cfg fs ts env).body = some b) :
    b = urlBody hostname cfg (env.nanoOut ++ str ".jpg") := by
  rcases retrieveRemote_cases hostname cfg fs ts env with ⟨step, hc⟩ | ⟨u, e, hc⟩
  · rw [hc] at h; cases h
  · rw [hc] at h; exact afterURL_body _ _ _ _ _ _ _ _ h

set_option maxHeartbeats 1000000 in
lemma afterURL_fs_cases (hostname : Str) (cfg : Config) (fs : FileSys) (ts : Int)
    (env : RemoteEnv) (u e : Str) :
    ((afterURL hostname cfg fs ts env u e).outcome ≠ .ok) ∨
    ∃ data, (afterURL hostname cfg fs ts env u e).fs =
      ⟨true, true,
        setFile fs.cacheFiles (env.nanoOut ++ str ".jpg") (env.compress data),
        removeFile (setFile (setFile fs.tmpFiles (env.nanoTmp ++ '.' :: e) [])
          (env.nanoTmp ++ '.' :: e) data) (env.nanoTmp ++ '.' :: e)⟩ := by
  unfold afterURL
  dsimp only []
  by_cases c1 : ¬fs.cacheDirExists = true ∧ ¬env.mkdirCacheOk = true
  · rw [if_pos c1]
    exact Or.inl (by simp)
  rw [if_neg c1]
  by_cases c2 : ¬fs.tmpDirExists = true ∧ ¬env.mkdirTmpOk = true
  · rw [if_pos c2]
    exact Or.inl (by simp)
  rw [if_neg c2]
  by_cases c3 : ¬env.createOk = true
  · rw [if_pos c3]
    exact Or.inl (by simp [mkRRErr])
  rw [if_neg c3]
  rcases hf : env.fetch u with _ | data
  · exact Or.inl (by simp [mkRRErr])
  · dsimp only []
    by_cases c4 : ¬env.readFileOk = true
    · rw [if_pos c4]
      exact Or.inl (by simp [mkRRErr])
    rw [if_neg c4]
    by_cases c5 : ¬env.writeOk = true
    · rw [if_pos c5]
      exact Or.inl (by simp [mkRRErr])
    rw [if_neg c5]
    by_cases c6 : ¬env.removeOk = true
    · rw [if_pos c6]
      exact Or.inl (by simp [mkRRErr])
    rw [if_neg c6]
    refine Or.inr ⟨data, ?_⟩
    rw [apply_ite RRState.fs]
    dsimp only []
    rw [apply_ite RRState.fs]
    dsimp only [mkRRErr]
    rw [apply_ite RRState.fs]
    dsimp only []
    simp only [ite_self]

lemma afterURL_ok_fs (hostname : Str) (cfg : Config) (fs : FileSys) (ts : Int)
    (env : RemoteEnv) (u e : Str)
    (hf1 : lookupFile fs.cacheFiles (env.nanoOut ++ str ".jpg") = none)
    (hf2 : lookupFile fs.tmpFiles (env.nanoTmp ++ '.' :: e) = none)
    (hok : (afterURL hostname cfg fs ts env u e).outcome = .ok) :
    ∃ d, (afterURL hostname cfg fs ts env u e).fs =
      ⟨true, true, fs.cacheFiles ++ [(env.nanoOut ++ str ".jpg", d)], fs.tmpFiles⟩ := by
  rcases afterURL_fs_cases hostname cfg fs ts env u e with hno | ⟨data, hfs⟩
  · exact absurd hok hno
  · refine ⟨env.compress data, ?_⟩
    rw [hfs, setFile_fresh _ _ _ hf1, setFile_fresh _ _ _ hf2,
      setFile_append_last _ _ _ _ hf2, removeFile_append_last _ _ _ hf2]

lemma retrieveRemote_ok_fs (hostname : Str) (cfg : Config) (fs : FileSys)
    (ts : Int) (env : RemoteEnv)
    (hf1 : lookupFile fs.cacheFiles (env.nanoOut ++ str ".jpg") = none)
    (hf2 : ∀ e, lookupFile fs.tmpFiles (env.nanoTmp ++ '.' :: e) = none)
    (hok : (retrieveRemote hostname cfg fs ts env).outcome = .ok) :
    ∃ d, (retrieveRemote hostname cfg fs ts env).fs =
      ⟨true, true, fs.cacheFiles ++ [(env.nanoOut ++ str ".jpg", d)], fs.tmpFiles⟩ := by
  rcases retrieveRemote_cases hostname cfg fs ts env with ⟨step, hc⟩ | ⟨u, e, hc⟩
  · rw [hc] at hok
    cases hok
  · rw [hc] at hok ⊢
    exact afterURL_ok_fs _ _ _ _ _ _ _ hf1 (hf2 e) hok

lemma cacheDirCount_mk (cfg : Config) (b1 b2 : Bool) (cfl tfl : List (Str × Str)) :
    cacheDirCount cfg ⟨b1, b2, cfl, tfl⟩ = cfl.length + (if b2 then 1 else 0) := by
  cases b2 <;> simp [cacheDirCount, readCacheDir]

set_option maxHeartbeats 1000000 in
lemma retrieveRemote_noURL (hostname : Str) (cfg : Config) (fs : FileSys) (ts : Int)
    (env : RemoteEnv) (ct bd : Str)
    (hg : env.httpGet (cfg.Remotes.getD (env.remotePick % cfg.Remotes.length) []) =
      some (200, ct, bd))
    (hct : getExtension ct = [])
    (hrb : env.readBodyOk = true)
    (hurl : getImgURL bd = [])
    (hcd : fs.cacheDirExists = true) (htd : fs.tmpDirExists = true)
    (hcr : env.createOk = true)
    (hfetch : env.fetch [] = none) :
    retrieveRemote hostname cfg fs ts env =
      mkRRErr cfg { fs with tmpFiles := setFile fs.tmpFiles (env.nanoTmp ++ ['.']) [] }
        env.nowUnix .download := by
  obtain ⟨cde, tde, cfl, tfl⟩ := fs
  dsimp only [] at hcd htd
  subst hcd
  subst htd
  unfold retrieveRemote
  dsimp only []
  rw [hg]
  dsimp only []
  rw [if_neg (by simp : ¬((200 : Nat) ≠ 200 ∧ (200 : Nat) ≠ 302 ∧ (200 : Nat) ≠ 301))]
  rw [hct]
  rw [if_neg (by simp : ¬(¬List.isEmpty ([] : Str) = true))]
  rw [if_neg (by simp [hrb] : ¬(¬env.readBodyOk = true))]
  rw [hurl]
  have h0 : getImgExtension ([] : Str) = [] := rfl
  rw [h0]
  unfold afterURL
  dsimp only []
  rw [if_neg (by simp : ¬(¬(true : Bool) = true ∧ ¬env.mkdirCacheOk = true))]
  rw [if_neg (by simp : ¬(¬(true : Bool) = true ∧ ¬env.mkdirTmpOk = true))]
  rw [if_neg (by simp [hcr] : ¬(¬env.createOk = true))]
  rw [hfetch]

/- ==================================================================
   Helper lemmas: the request handler's path handling.
   ================================================================== -/

lemma localServeAttempt_isImage (cfg : Config) (fs : FileSys) (lenv : LocalEnv)
    (name : Str) (h : (localServeAttempt cfg fs lenv).1 = some name) :
    isImage lenv.validFile name = true := by
  unfold localServeAttempt at h
  by_cases h1 : ¬lenv.readDirOk = true
  · rw [if_pos h1] at h
    cases h
  rw [if_neg h1] at h
  dsimp only [] at h
  by_cases h2 : (readCacheDir cfg fs).length = 0
  · rw [if_pos h2] at h
    cases h
  rw [if_neg h2] at h
  rcases hp : pickLoopFuel (isImage lenv.validFile) lenv.picks
      (readCacheDir cfg fs).length 1 (readCacheDir cfg fs)
      (lenv.picks 0 % (readCacheDir cfg fs).length) [] with _ | pr
  · rw [hp] at h
    cases h
  · rw [hp] at h
    dsimp only [] at h
    exact pickLoopFuel_served_isImg _ _ _ _ _ _ _ _ _ hp h

lemma isPrefixOf_slash_false (cf : Str) :
    (str "/" ++ cf ++ str "/").isPrefixOf (str "/") = false := by
  rcases cf with _ | ⟨c, cs⟩ <;> simp [str, List.isPrefixOf]

lemma not_prefix_slash (cf : Str) :
    ¬((str "/" ++ cf ++ str "/").isPrefixOf (str "/") = true) := by
  rw [isPrefixOf_slash_false]
  simp

lemma replaceBackslash_no_bs (s : Str) (h : '\\' ∉ s) : replaceBackslash s = s := by
  induction s with
  | nil => rfl
  | cons c cs ih =>
    unfold replaceBackslash
    simp only [List.map_cons]
    have hc : c ≠ '\\' := fun hx => h (hx ▸ List.mem_cons_self c cs)
    rw [if_neg hc]
    have := ih (fun hx => h (List.mem_cons_of_mem c hx))
    unfold replaceBackslash at this
    rw [this]

lemma splitPathAux_seg (s : Str) (hs : ∀ x ∈ s, x ≠ '/') :
    ∀ (r cur : Str), splitPathAux (s ++ r) cur = splitPathAux r (s.reverse ++ cur) := by
  induction s with
  | nil => intro r cur; simp
  | cons c cs ih =>
    intro r cur
    rw [List.cons_append, splitPathAux]
    rw [if_neg (hs c (List.mem_cons_self c cs))]
    rw [ih (fun x hx => hs x (List.mem_cons_of_mem c hx)) r (c :: cur)]
    simp

lemma splitPathGo_two (cf fname : Str) (hcf : cf ≠ []) (hcfs : ∀ x ∈ cf, x ≠ '/')
    (hfn : fname ≠ []) (hfns : ∀ x ∈ fname, x ≠ '/') :
    splitPathGo (cf ++ '/' :: '/' :: fname) = [cf, fname] := by
  unfold splitPathGo
  rw [splitPathAux_seg cf hcfs ('/' :: '/' :: fname) []]
  rw [splitPathAux]
  rw [if_pos rfl]
  rw [if_neg (by simp [List.isEmpty_iff, hcf] : ¬(cf.reverse ++ [] : Str).isEmpty = true)]
  rw [splitPathAux]
  rw [if_pos rfl]
  rw [if_pos (by simp : (([] : Str)).isEmpty = true)]
  have : splitPathAux fname [] = splitPathAux (fname ++ []) [] := by simp
  rw [this, splitPathAux_seg fname hfns [] []]
  rw [splitPathAux]
  rw [if_neg (by simp [List.isEmpty_iff, hfn] : ¬(fname.reverse ++ [] : Str).isEmpty = true)]
  simp

lemma path_ne_favicon (cf fname : Str) (hcfs : ∀ x ∈ cf, x ≠ '/')
    (hfns : ∀ x ∈ fname, x ≠ '/') :
    str "/" ++ cf ++ str "/" ++ fname ≠ str "/favicon.ico" := by
  intro h
  have hcount := congrArg (List.count '/') h
  rw [List.count_append, List.count_append, List.count_append] at hcount
  have h1 : List.count '/' cf = 0 := by
    rw [List.count_eq_zero]
    intro hmem
    exact hcfs '/' hmem rfl
  have h2 : List.count '/' fname = 0 := by
    rw [List.count_eq_zero]
    intro hmem
    exact hfns '/' hmem rfl
  rw [h1, h2] at hcount
  have h3 : List.count '/' (str "/") = 1 := by decide
  have h4 : List.count '/' (str "/favicon.ico") = 1 := by decide
  rw [h3, h4] at hcount
  omega

lemma extPats_ne_nil (p : Str) (hp : p ∈ extPats) : p ≠ [] := by
  simp only [extPats, List.mem_cons, List.not_mem_nil, or_false] at hp
  rcases hp with rfl | rfl | rfl <;> decide

lemma pathExt_nonempty (cf fname : Str) (hnl : ∀ x ∈ fname, x ≠ '\n')
    (hext : ∃ a e, fname = a ++ '.' :: e ∧ lowerStr e ∈ extPats) :
    getImgExtension (str "/" ++ cf ++ str "/" ++ fname) ≠ [] := by
  obtain ⟨a, e, hfn, hpat⟩ := hext
  rcases List.eq_nil_or_concat a with rfl | ⟨a2, c, rfl⟩
  · have hps : str "/" ++ cf ++ str "/" ++ fname = (str "/" ++ cf) ++ '/' :: '.' :: e := by
      rw [hfn]
      simp [str]
    rw [hps, getImgExtension_decomp (lowerStr e) _ e '/' (by decide) hpat rfl]
    exact extPats_ne_nil _ hpat
  · have hcmem : c ∈ fname := by
      rw [hfn]
      simp
    have hps : str "/" ++ cf ++ str "/" ++ fname =
        (str "/" ++ cf ++ str "/" ++ a2) ++ c :: '.' :: e := by
      rw [hfn]
      simp
    rw [hps, getImgExtension_decomp (lowerStr e) _ e c (hnl c hcmem) hpat rfl]
    exact extPats_ne_nil _ hpat

lemma fname_ext_of_pathExt (cf fname : Str) (hfns : ∀ x ∈ fname, x ≠ '/')
    (h : getImgExtension (str "/" ++ cf ++ str "/" ++ fname) ≠ []) :
    ∃ a e, fname = a ++ '.' :: e ∧ lowerStr e ∈ extPats := by
  obtain ⟨A, C, E, hpath, hC, hE, hmem⟩ := getImgExtension_sound _ h
  have hr1 : (str "/" ++ cf ++ str "/" ++ fname).reverse =
      E.reverse ++ '.' :: C :: A.reverse := by
    rw [hpath]
    simp
  have hEslash : '/' ∉ E := by
    intro hmemE
    have h2 : Char.toLower '/' ∈ E.map Char.toLower := List.mem_map_of_mem _ hmemE
    rw [hE, (by decide : Char.toLower '/' = '/')] at h2
    simp only [extPats, List.mem_cons, List.not_mem_nil, or_false] at hmem
    rcases hmem with hm | hm | hm <;> rw [hm] at h2 <;> revert h2 <;> decide
  have hp1 : E.reverse ++ ['.'] <+: (str "/" ++ cf ++ str "/" ++ fname).reverse :=
    ⟨C :: A.reverse, by rw [hr1]; simp⟩
  have hp2 : fname.reverse <+: (str "/" ++ cf ++ str "/" ++ fname).reverse :=
    ⟨(str "/" ++ cf ++ str "/").reverse, by simp⟩
  rcases List.prefix_or_prefix_of_prefix hp1 hp2 with hcase | hcase
  · obtain ⟨t, ht⟩ := hcase
    refine ⟨t.reverse, E, ?_, ?_⟩
    · have h3 := congrArg List.reverse ht
      simp at h3
      rw [← h3]
    · rw [show lowerStr E = E.map Char.toLower from rfl, hE]
      exact hmem
  · by_cases hlen : fname.length = E.length + 1
    · have heq : fname.reverse = E.reverse ++ ['.'] :=
        hcase.eq_of_length (by simp [hlen])
      refine ⟨[], E, ?_, ?_⟩
      · have h3 := congrArg List.reverse heq
        simp at h3
        rw [← h3]
        rfl
      · rw [show lowerStr E = E.map Char.toLower from rfl, hE]
        exact hmem
    · have hle : fname.length ≤ E.length := by
        have h4 := hcase.length_le
        simp at h4
        omega
      exfalso
      have hx1 : ((str "/" ++ cf ++ str "/" ++ fname).reverse).get? fname.length =
          some '/' := by
        have hr2 : (str "/" ++ cf ++ str "/" ++ fname).reverse =
            fname.reverse ++ (str "/" ++ cf ++ str "/").reverse := by
          simp
        rw [hr2]
        rw [List.get?_append_right (by simp : fname.reverse.length ≤ fname.length)]
        simp [str]
      by_cases hlt : fname.length < E.length
      · have hx2 : ((str "/" ++ cf ++ str "/" ++ fname).reverse).get? fname.length =
            E.reverse.get? fname.length := by
          rw [hr1]
          exact List.get?_append (by simp [hlt])
        rw [hx1] at hx2
        have h5 : '/' ∈ E.reverse := List.get?_mem hx2.symm
        exact hEslash (List.mem_reverse.mp h5)
      · have hEq : fname.length = E.length := by omega
        have hx2 : ((str "/" ++ cf ++ str "/" ++ fname).reverse).get? fname.length =
            some '.' := by
          rw [hr1]
          rw [List.get?_append_right (by simp [hEq] : E.reverse.length ≤ fname.length)]
          simp [hEq]
        rw [hx1] at hx2
        simp at hx2

lemma pickLoopOld_stuck : ∀ (fuel ctr : Nat),
    pickLoopOldFuel isImage_v1 (fun _ => 0) fuel ctr [⟨str "a.txt", false⟩] 0 = none := by
  intro fuel
  induction fuel with
  | zero => intro ctr; rfl
  | succ fuel ih =>
    intro ctr
    rw [pickLoopOldFuel]
    have hni : isImage_v1 (str "a.txt") = false := by decide
    simp only [List.get?, hni]
    simpa using ih (ctr + 1)

/- ==================================================================
   The claims.
   ================================================================== -/

/-- C9: every URL extracted by getImgURL from a response body carries a
supported image extension: when getImgURL s is non-empty, getImgExtension of
it is one of jpg, jpeg, png (lowercase), in particular non-empty, so the
temporary filename built on the body-extraction path has a non-empty
extension. -/
theorem getImgURL_extension_supported (s : Str) (h : getImgURL s ≠ []) :
    getImgExtension (getImgURL s) ∈ extPats ∧ getImgExtension (getImgURL s) ≠ [] := by
  unfold getImgURL at h ⊢
  obtain ⟨a, c, e, pat, heq, hc, he, hpat⟩ := findImgURL_sound _ h
  rw [heq, getImgExtension_decomp pat a e c hc hpat he]
  exact ⟨hpat, extPats_ne_nil _ hpat⟩

theorem getImgURL_extension_supported_witness :
    getImgURL (str "x http://a.b/c.PNG y") ≠ [] ∧
    (getImgExtension (getImgURL (str "x http://a.b/c.PNG y")) ∈ extPats ∧
     getImgExtension (getImgURL (str "x http://a.b/c.PNG y")) ≠ []) :=
  ⟨by decide, getImgURL_extension_supported _ (by decide)⟩

/-- C5 (amended): in the latest variant lastUpdateTimestamp is set to the
current Unix time at the START of every remote fetch attempt, successful or
not; the incoming timestamp is discarded unconditionally. -/
theorem timestamp_set_at_fetch_start (hostname : Str) (cfg : Config)
    (fs : FileSys) (ts : Int) (env : RemoteEnv) :
    (retrieveRemote hostname cfg fs ts env).timestamp = env.nowUnix :=
  retrieveRemote_timestamp hostname cfg fs ts env

/-- C5 counterexample: a fetch whose upstream GET fails immediately still
overwrites lastUpdateTimestamp (0 becomes 1000), refuting the claim that a
failed fetch leaves it unchanged. -/
theorem timestamp_updated_on_failed_fetch_cex :
    (retrieveRemote (str "h") cfg0 fsEmpty 0 envFail).outcome = .errAt .httpGet ∧
    (retrieveRemote (str "h") cfg0 fsEmpty 0 envFail).timestamp = 1000 ∧
    (retrieveRemote (str "h") cfg0 fsEmpty 0 envFail).timestamp ≠ 0 := by
  refine ⟨rfl, rfl, by decide⟩

/-- C4: evaluating the embedded retrieveRemote at a request where the cache
folder is missing and os.Mkdir fails: the run ends in the log.Fatalln branch
(process exit), not in a logged-and-degraded per-request error. -/
theorem mkdir_failure_fatal :
    (retrieveRemote (str "h") cfg0 ⟨false, false, [], []⟩ 0 envMkdirFail).outcome =
      .fatalMkdirCache := rfl

/-- C10 (amended): the pick loop of the LATEST variant terminates on every
listing: fuel equal to the listing length always suffices, because each
iteration removes one entry from the listing. (The older variants' loop,
embedded as pickLoopOldFuel, does not terminate on listings without a valid
image; see the counterexample.) -/
theorem pick_loop_terminates (isImg : Str → Bool) (picks : Nat → Nat)
    (ctr idx : Nat) (files : List FsEntry) (removed : List Str)
    (hidx : idx < files.length) :
    (pickLoopFuel isImg picks files.length ctr files idx removed).isSome = true :=
  pickLoopFuel_isSome isImg picks files.length ctr idx files removed rfl hidx

theorem pick_loop_terminates_witness :
    0 < ([⟨str "a.txt", false⟩] : List FsEntry).length ∧
    (pickLoopFuel isImage_v1 (fun _ => 0)
      ([⟨str "a.txt", false⟩] : List FsEntry).length 1
      [⟨str "a.txt", false⟩] 0 []).isSome = true :=
  ⟨by decide, pick_loop_terminates isImage_v1 (fun _ => 0) 1 0
    [⟨str "a.txt", false⟩] [] (by decide)⟩

/-- C10 counterexample: the older variants' loop (which removes files from
disk but never from the listing) never terminates on a listing whose only
entry is not an image, whatever fuel it is given. -/
theorem old_pick_loop_diverges_cex :
    ¬ ∃ fuel : Nat, (pickLoopOldFuel isImage_v1 (fun _ => 0) fuel 1
      [⟨str "a.txt", false⟩] 0).isSome = true := by
  rintro ⟨fuel, hf⟩
  rw [pickLoopOld_stuck fuel 1] at hf
  cases hf

/-- C1: for a GET / request, when the local serve attempt succeeded and mode
is local or the last update is fresher than UpdateInterval, the handler
returns the local image URL immediately and performs no remote call. -/
theorem handleRequest_local_fresh_no_remote
    (method path hostname : Str) (cfg : Config) (fs : FileSys) (ts : Int)
    (lenv : LocalEnv) (renv : RemoteEnv) (name : Str)
    (hm : method = str "GET") (hp : path = str "/")
    (hserve : (localServeAttempt cfg fs lenv).1 = some name)
    (hfresh : cfg.Mode = Local ∨ lenv.nowUnix - ts < cfg.UpdateInterval) :
    handleRequest method path hostname cfg fs ts lenv renv =
      .root ⟨some (urlStr hostname cfg.CacheFolder name), some name, false, false,
        (localServeAttempt cfg fs lenv).2, none⟩ := by
  subst hm
  subst hp
  unfold handleRequest
  rw [if_neg (by simp : ¬(str "GET" ≠ str "GET"))]
  rw [if_neg (by decide : ¬(str "/" = str "/favicon.ico"))]
  rw [if_neg (not_prefix_slash cfg.CacheFolder)]
  rw [if_neg (by simp : ¬(str "/" ≠ str "/"))]
  rw [hserve]
  dsimp only []
  rw [if_pos hfresh]

theorem handleRequest_local_fresh_no_remote_witness :
    (localServeAttempt cfg0 fsOne lenv0).1 = some (str "a.jpg") ∧
    handleRequest (str "GET") (str "/") (str "h") cfg0 fsOne 0 lenv0 env0 =
      .root ⟨some (urlStr (str "h") cfg0.CacheFolder (str "a.jpg")),
        some (str "a.jpg"), false, false,
        (localServeAttempt cfg0 fsOne lenv0).2, none⟩ :=
  ⟨by decide, handleRequest_local_fresh_no_remote (str "GET") (str "/") (str "h")
    cfg0 fsOne 0 lenv0 env0 (str "a.jpg") rfl rfl (by decide)
    (Or.inr (by decide))⟩

/-- C2 (amended): mode transitions.  (1) After a fetch that runs to
completion with MaxCacheSize nonzero and the re-listed entry count at or
above the cap, the mode is local and the config was persisted.  (2) Whenever
a fetch changed the mode at all, it changed it to local, the fetch completed,
the config was persisted and the cap was reached.  (3) A fetch never leaves
local mode (no automatic local-to-remote transition).  (4) A GET / request
served from the local cache performs no remote call while mode is local.
However a GET / whose local serve FAILS still fetches remotely even in local
mode (see the counterexample), so being in local mode alone does not prevent
remote fetches. -/
theorem mode_transition_invariants :
    (∀ (hostname : Str) (cfg : Config) (fs : FileSys) (ts : Int) (env : RemoteEnv),
      (retrieveRemote hostname cfg fs ts env).outcome = .ok →
      cfg.MaxCacheSize ≠ 0 →
      (cacheDirCount cfg (retrieveRemote hostname cfg fs ts env).fs : Int) ≥
        cfg.MaxCacheSize →
      (retrieveRemote hostname cfg fs ts env).cfg.Mode = Local ∧
      (retrieveRemote hostname cfg fs ts env).persisted = true) ∧
    (∀ (hostname : Str) (cfg : Config) (fs : FileSys) (ts : Int) (env : RemoteEnv),
      (retrieveRemote hostname cfg fs ts env).cfg.Mode ≠ cfg.Mode →
      (retrieveRemote hostname cfg fs ts env).cfg.Mode = Local ∧
      (retrieveRemote hostname cfg fs ts env).outcome = .ok ∧
      (retrieveRemote hostname cfg fs ts env).persisted = true ∧
      cfg.MaxCacheSize ≠ 0 ∧
      (cacheDirCount cfg (retrieveRemote hostname cfg fs ts env).fs : Int) ≥
        cfg.MaxCacheSize) ∧
    (∀ (hostname : Str) (cfg : Config) (fs : FileSys) (ts : Int) (env : RemoteEnv),
      cfg.Mode = Local → (retrieveRemote hostname cfg fs ts env).cfg.Mode = Local) ∧
    (∀ (hostname : Str) (cfg : Config) (fs : FileSys) (ts : Int)
        (lenv : LocalEnv) (renv : RemoteEnv) (name : Str),
      cfg.Mode = Local →
      (localServeAttempt cfg fs lenv).1 = some name →
      handleRequest (str "GET") (str "/") hostname cfg fs ts lenv renv =
        .root ⟨some (urlStr hostname cfg.CacheFolder name), some name, false, false,
          (localServeAttempt cfg fs lenv).2, none⟩) := by
  refine ⟨?_, ?_, ?_, ?_⟩
  · intro hostname cfg fs ts env hok hmax hcnt
    obtain ⟨h1, h2⟩ := retrieveRemote_flip hostname cfg fs ts env hok hmax hcnt
    rw [h1]
    exact ⟨rfl, h2⟩
  · intro hostname cfg fs ts env hne
    rcases retrieveRemote_mode_cases hostname cfg fs ts env with ⟨h1, _⟩ | h
    · exact absurd (by rw [h1]) hne
    · obtain ⟨h1, h2, h3, h4, h5⟩ := h
      rw [h1]
      exact ⟨rfl, h3, h2, h4, h5⟩
  · intro hostname cfg fs ts env hloc
    rcases retrieveRemote_mode_cases hostname cfg fs ts env with ⟨h1, _⟩ | ⟨h1, _⟩ <;>
      rw [h1] <;> simp [hloc]
  · intro hostname cfg fs ts lenv renv name hloc hserve
    unfold handleRequest
    rw [if_neg (by simp : ¬(str "GET" ≠ str "GET"))]
    rw [if_neg (by decide : ¬(str "/" = str "/favicon.ico"))]
    rw [if_neg (not_prefix_slash cfg.CacheFolder)]
    rw [if_neg (by simp : ¬(str "/" ≠ str "/"))]
    rw [hserve]
    dsimp only []
    rw [if_pos (Or.inl hloc)]

theorem mode_transition_invariants_witness :
    (retrieveRemote (str "h") cfgMax2 ⟨true, true, [(str "a.jpg", str "D")], []⟩
      0 env0).cfg.Mode = Local ∧
    (retrieveRemote (str "h") cfgMax2 ⟨true, true, [(str "a.jpg", str "D")], []⟩
      0 env0).persisted = true :=
  (mode_transition_invariants).1 (str "h") cfgMax2
    ⟨true, true, [(str "a.jpg", str "D")], []⟩ 0 env0 (by decide) (by decide) (by decide)

/-- C2 counterexample: with mode already local but an empty cache folder,
GET / still performs a (synchronous) remote fetch, refuting the claim that
once local no subsequent request triggers a remote fetch. -/
theorem local_mode_still_fetches_cex :
    cfgLocal.Mode = Local ∧
    ∃ res, handleRequest (str "GET") (str "/") (str "h") cfgLocal
      ⟨true, false, [], []⟩ 0 lenv0 env0 = .root res ∧ res.remoteCalled = true := by
  exact ⟨rfl, _, rfl, rfl⟩

/-- C6 (amended): when the upstream response is not an image and its body
(escaped slashes stripped) contains no http(s) image URL, the code does NOT
fail at the extraction step: the empty URL flows onward, an empty temporary
file named nanoTmp-dot (empty extension) is created in the tmp folder, and
the fetch fails at the download step (http.Get of the empty URL errors).  No
response body is written and no entry is added to the cache folder itself. -/
theorem noImageURL_fails_at_download (hostname : Str) (cfg : Config)
    (fs : FileSys) (ts : Int) (env : RemoteEnv) (ct bd : Str)
    (hg : env.httpGet (cfg.Remotes.getD (env.remotePick % cfg.Remotes.length) []) =
      some (200, ct, bd))
    (hct : getExtension ct = [])
    (hrb : env.readBodyOk = true)
    (hurl : getImgURL bd = [])
    (hcd : fs.cacheDirExists = true) (htd : fs.tmpDirExists = true)
    (hcr : env.createOk = true)
    (hfetch : env.fetch [] = none) :
    (retrieveRemote hostname cfg fs ts env).outcome = .errAt .download ∧
    (retrieveRemote hostname cfg fs ts env).body = none ∧
    (retrieveRemote hostname cfg fs ts env).fs.cacheFiles = fs.cacheFiles ∧
    (retrieveRemote hostname cfg fs ts env).fs.tmpFiles =
      setFile fs.tmpFiles (env.nanoTmp ++ ['.']) [] := by
  rw [retrieveRemote_noURL hostname cfg fs ts env ct bd hg hct hrb hurl hcd htd hcr hfetch]
  exact ⟨rfl, rfl, rfl, rfl⟩

theorem noImageURL_fails_at_download_witness :
    (retrieveRemote (str "h") cfg0 fsEmpty 0 envNoURL).outcome = .errAt .download ∧
    (retrieveRemote (str "h") cfg0 fsEmpty 0 envNoURL).body = none ∧
    (retrieveRemote (str "h") cfg0 fsEmpty 0 envNoURL).fs.cacheFiles =
      fsEmpty.cacheFiles ∧
    (retrieveRemote (str "h") cfg0 fsEmpty 0 envNoURL).fs.tmpFiles =
      setFile fsEmpty.tmpFiles (envNoURL.nanoTmp ++ ['.']) [] :=
  noImageURL_fails_at_download (str "h") cfg0 fsEmpty 0 envNoURL
    (str "text/html") (str "no image link") rfl rfl rfl (by decide) rfl rfl rfl rfl

/-- C6 counterexample: on a response body without an image URL, the
filesystem is NOT left unchanged (an empty temp file appears in the tmp
folder), refuting the claim that the fetch fails at the extraction step with
no file created; the recorded failure step is the download, not the
extraction. -/
theorem noImageURL_creates_tmp_cex :
    (retrieveRemote (str "h") cfg0 fsEmpty 0 envNoURL).fs ≠ fsEmpty ∧
    (retrieveRemote (str "h") cfg0 fsEmpty 0 envNoURL).fs.tmpFiles ≠ [] ∧
    (retrieveRemote (str "h") cfg0 fsEmpty 0 envNoURL).outcome = .errAt .download := by
  refine ⟨by decide, by decide, rfl⟩

/-- C8 (amended): a fetch that runs to completion adds exactly one entry to
the cache folder (the new compressed image) and leaves the tmp folder as it
found it, PROVIDED the tmp subfolder already exists; the very first fetch
also creates the tmp subfolder, which itself is an entry of the cache
folder, so the entry count then rises by two (see the counterexample). -/
theorem fetch_adds_one_entry (hostname : Str) (cfg : Config) (fs : FileSys)
    (ts : Int) (env : RemoteEnv)
    (htd : fs.tmpDirExists = true)
    (hf1 : lookupFile fs.cacheFiles (env.nanoOut ++ str ".jpg") = none)
    (hf2 : ∀ e, lookupFile fs.tmpFiles (env.nanoTmp ++ '.' :: e) = none)
    (hok : (retrieveRemote hostname cfg fs ts env).outcome = .ok) :
    cacheDirCount cfg (retrieveRemote hostname cfg fs ts env).fs =
      cacheDirCount cfg fs + 1 ∧
    (∃ d, (retrieveRemote hostname cfg fs ts env).fs.cacheFiles =
      fs.cacheFiles ++ [(env.nanoOut ++ str ".jpg", d)]) ∧
    (retrieveRemote hostname cfg fs ts env).fs.tmpFiles = fs.tmpFiles := by
  obtain ⟨d, hfs⟩ := retrieveRemote_ok_fs hostname cfg fs ts env hf1 hf2 hok
  have hcnt : cacheDirCount cfg fs = fs.cacheFiles.length + 1 := by
    obtain ⟨cde, tde, cfl, tfl⟩ := fs
    dsimp only [] at htd
    subst htd
    rw [cacheDirCount_mk]
    simp
  rw [hfs, cacheDirCount_mk, hcnt]
  refine ⟨by simp, ⟨d, rfl⟩, rfl⟩

theorem fetch_adds_one_entry_witness :
    cacheDirCount cfg0 (retrieveRemote (str "h") cfg0 fsEmpty 0 env0).fs =
      cacheDirCount cfg0 fsEmpty + 1 ∧
    (∃ d, (retrieveRemote (str "h") cfg0 fsEmpty 0 env0).fs.cacheFiles =
      fsEmpty.cacheFiles ++ [(env0.nanoOut ++ str ".jpg", d)]) ∧
    (retrieveRemote (str "h") cfg0 fsEmpty 0 env0).fs.tmpFiles = fsEmpty.tmpFiles :=
  fetch_adds_one_entry (str "h") cfg0 fsEmpty 0 env0 rfl rfl (fun _ => rfl) rfl

/-- C8 counterexample: the very first successful fetch (tmp subfolder not
yet present) raises the cache folder's entry count by two, not one: the new
image plus the freshly created tmp subfolder. -/
theorem first_fetch_adds_two_cex :
    (retrieveRemote (str "h") cfg0 fsNoTmp 0 env0).outcome = .ok ∧
    cacheDirCount cfg0 (retrieveRemote (str "h") cfg0 fsNoTmp 0 env0).fs =
      cacheDirCount cfg0 fsNoTmp + 2 := by
  refine ⟨rfl, by decide⟩

lemma urlStr_matches (hostname cf name : Str) (hni : getImgExtension name ≠ []) :
    ∃ n2 ext, urlStr hostname cf name =
      str "http://" ++ hostname ++ str "/" ++ cf ++ str "/" ++ n2 ++ '.' :: ext ∧
      lowerStr ext ∈ extPats := by
  obtain ⟨a, c, e, hdecomp, hc, he, hmem⟩ := getImgExtension_sound name hni
  refine ⟨a ++ [c], e, ?_, ?_⟩
  · unfold urlStr
    rw [hdecomp]
    simp
  · rw [show lowerStr e = e.map Char.toLower from rfl, he]
    exact hmem

lemma urlBody_matches (hostname : Str) (cfg : Config) (nano : Str)
    (hnb : '\\' ∉ cfg.CacheFolder) :
    ∃ n2 ext, urlBody hostname cfg (nano ++ str ".jpg") =
      str "http://" ++ hostname ++ str "/" ++ cfg.CacheFolder ++ str "/" ++ n2 ++
        '.' :: ext ∧ lowerStr ext ∈ extPats := by
  refine ⟨replaceBackslash nano, str "jpg", ?_, by decide⟩
  unfold urlBody
  have hsplit : replaceBackslash (cfg.CacheFolder ++ pathSep :: (nano ++ str ".jpg")) =
      cfg.CacheFolder ++ '/' :: (replaceBackslash nano ++ str ".jpg") := by
    unfold replaceBackslash
    rw [List.map_append, List.map_cons, List.map_append]
    have h1 := replaceBackslash_no_bs cfg.CacheFolder hnb
    unfold replaceBackslash at h1
    rw [h1]
    rw [show (if pathSep = '\\' then '/' else pathSep) = '/' from by decide]
    rw [show (str ".jpg").map (fun c => if c = '\\' then '/' else c) = str ".jpg"
      from by decide]
  rw [hsplit]
  rw [show (str "/") = ['/'] from rfl, show (str ".jpg") = '.' :: str "jpg" from rfl]
  simp

set_option maxHeartbeats 1000000 in
/-- C3: every non-empty response body of GET / is an absolute image URL of
the form http-colon-slash-slash host / cacheFolder / name . (jpg or jpeg or
png), the extension matched case-insensitively.  Stated for a cache folder
without backslashes (the path separator rewrite is the identity then). -/
theorem responseBody_matches_pattern
    (method path hostname : Str) (cfg : Config) (fs : FileSys) (ts : Int)
    (lenv : LocalEnv) (renv : RemoteEnv) (res : RootResult) (b : Str)
    (hnb : '\\' ∉ cfg.CacheFolder)
    (hres : handleRequest method path hostname cfg fs ts lenv renv = .root res)
    (hb : res.body = some b) :
    ∃ name ext, b = str "http://" ++ hostname ++ str "/" ++ cfg.CacheFolder ++
      str "/" ++ name ++ '.' :: ext ∧ lowerStr ext ∈ extPats := by
  unfold handleRequest at hres
  by_cases h1 : method ≠ str "GET"
  · rw [if_pos h1] at hres
    exact HResult.noConfusion hres
  rw [if_neg h1] at hres
  by_cases h2 : path = str "/favicon.ico"
  · rw [if_pos h2] at hres
    exact HResult.noConfusion hres
  rw [if_neg h2] at hres
  by_cases h3 : (str "/" ++ cfg.CacheFolder ++ str "/").isPrefixOf path = true
  · rw [if_pos h3] at hres
    by_cases h4 : getImgExtension path = []
    · rw [if_pos h4] at hres
      exact HResult.noConfusion hres
    · rw [if_neg h4] at hres
      rcases hsl : statLookup cfg fs
          (cfg.CacheFolder ++ pathSep :: path.drop (cfg.CacheFolder.length + 1)) with
        _ | content
      · rw [hsl] at hres
        dsimp only [] at hres
        exact HResult.noConfusion hres
      · rw [hsl] at hres
        dsimp only [] at hres
        exact HResult.noConfusion hres
  rw [if_neg h3] at hres
  by_cases h5 : path ≠ str "/"
  · rw [if_pos h5] at hres
    exact HResult.noConfusion hres
  rw [if_neg h5] at hres
  rcases hls : (localServeAttempt cfg fs lenv).1 with _ | name
  · rw [hls] at hres
    dsimp only [] at hres
    simp only [HResult.root.injEq] at hres
    rw [← hres] at hb
    dsimp only [] at hb
    have hbody := retrieveRemote_body _ _ _ _ _ _ hb
    rw [hbody]
    exact urlBody_matches hostname cfg renv.nanoOut hnb
  · rw [hls] at hres
    dsimp only [] at hres
    have hnameImg := localServeAttempt_isImage cfg fs lenv name hls
    have hni : getImgExtension name ≠ [] := by
      unfold isImage at hnameImg
      rw [Bool.and_eq_true] at hnameImg
      have := hnameImg.1
      simp [List.isEmpty_iff] at this
      exact this
    by_cases h6 : (cfg.Mode = Local ∨ lenv.nowUnix - ts < cfg.UpdateInterval)
    · rw [if_pos h6] at hres
      simp only [HResult.root.injEq] at hres
      rw [← hres] at hb
      dsimp only [] at hb
      injection hb with hb
      rw [← hb]
      exact urlStr_matches hostname cfg.CacheFolder name hni
    · rw [if_neg h6] at hres
      simp only [HResult.root.injEq] at hres
      rw [← hres] at hb
      dsimp only [] at hb
      injection hb with hb
      rw [← hb]
      exact urlStr_matches hostname cfg.CacheFolder name hni

/-- C7: a GET for /cacheFolder/fname (fname a single path component without
slashes or newlines) serves exactly the file's bytes with 200 when fname has
a jpg, jpeg or png extension (case-insensitive) and the file exists in the
cache folder, and responds 404 when the extension is unsupported or the file
is missing. -/
theorem cacheFile_request_served
    (hostname fname : Str) (cfg : Config) (fs : FileSys) (ts : Int)
    (lenv : LocalEnv) (renv : RemoteEnv)
    (hcf : cfg.CacheFolder ≠ []) (hcfs : ∀ x ∈ cfg.CacheFolder, x ≠ '/')
    (hfn : fname ≠ []) (hfns : ∀ x ∈ fname, x ≠ '/') (hfnl : ∀ x ∈ fname, x ≠ '\n')
    (hdir : fs.cacheDirExists = true) :
    ((∃ a e, fname = a ++ '.' :: e ∧ lowerStr e ∈ extPats) →
      handleRequest (str "GET") (str "/" ++ cfg.CacheFolder ++ str "/" ++ fname)
          hostname cfg fs ts lenv renv =
        (match lookupFile fs.cacheFiles fname with
         | some content => HResult.fileServed content
         | none => HResult.notFound)) ∧
    ((¬ ∃ a e, fname = a ++ '.' :: e ∧ lowerStr e ∈ extPats) →
      handleRequest (str "GET") (str "/" ++ cfg.CacheFolder ++ str "/" ++ fname)
          hostname cfg fs ts lenv renv = .notFound) := by
  have hpre : (str "/" ++ cfg.CacheFolder ++ str "/").isPrefixOf
      (str "/" ++ cfg.CacheFolder ++ str "/" ++ fname) = true := by
    rw [List.isPrefixOf_iff_prefix]
    exact ⟨fname, rfl⟩
  have hred : handleRequest (str "GET")
      (str "/" ++ cfg.CacheFolder ++ str "/" ++ fname) hostname cfg fs ts lenv renv =
      (if getImgExtension (str "/" ++ cfg.CacheFolder ++ str "/" ++ fname) = [] then
        HResult.notFound
       else
        match statLookup cfg fs (cfg.CacheFolder ++ pathSep ::
            (str "/" ++ cfg.CacheFolder ++ str "/" ++ fname).drop
              (cfg.CacheFolder.length + 1)) with
        | some content => HResult.fileServed content
        | none => HResult.notFound) := by
    unfold handleRequest
    rw [if_neg (by simp : ¬(str "GET" ≠ str "GET"))]
    rw [if_neg (path_ne_favicon cfg.CacheFolder fname hcfs hfns)]
    rw [if_pos hpre]
  have hdrop : (str "/" ++ cfg.CacheFolder ++ str "/" ++ fname).drop
      (cfg.CacheFolder.length + 1) = '/' :: fname := by
    have hshape : str "/" ++ cfg.CacheFolder ++ str "/" ++ fname =
        '/' :: (cfg.CacheFolder ++ '/' :: fname) := by
      simp [str]
    rw [hshape, List.drop_succ_cons]
    have := List.drop_left cfg.CacheFolder ('/' :: fname)
    exact this
  have hstat : statLookup cfg fs (cfg.CacheFolder ++ pathSep ::
      (str "/" ++ cfg.CacheFolder ++ str "/" ++ fname).drop
        (cfg.CacheFolder.length + 1)) = lookupFile fs.cacheFiles fname := by
    rw [hdrop]
    unfold statLookup
    rw [if_neg (by simp [hdir] : ¬(¬fs.cacheDirExists = true))]
    have hsp : splitPathGo (cfg.CacheFolder ++ pathSep :: '/' :: fname) =
        [cfg.CacheFolder, fname] := by
      rw [show pathSep = '/' from rfl]
      exact splitPathGo_two _ _ hcf hcfs hfn hfns
    rw [hsp]
    dsimp only []
    rw [if_pos rfl]
  constructor
  · intro hext
    rw [hred, if_neg (pathExt_nonempty cfg.CacheFolder fname hfnl hext), hstat]
  · intro hnege
    have hz : getImgExtension (str "/" ++ cfg.CacheFolder ++ str "/" ++ fname) = [] := by
      by_contra hne
      exact hnege (fname_ext_of_pathExt cfg.CacheFolder fname hfns hne)
    rw [hred, if_pos hz]

theorem responseBody_matches_pattern_witness :
    ∃ name ext, urlStr (str "h") cfg0.CacheFolder (str "a.jpg") =
      str "http://" ++ str "h" ++ str "/" ++ cfg0.CacheFolder ++ str "/" ++ name ++
        '.' :: ext ∧ lowerStr ext ∈ extPats :=
  responseBody_matches_pattern (str "GET") (str "/") (str "h") cfg0 fsOne 0 lenv0
    env0
    ⟨some (urlStr (str "h") cfg0.CacheFolder (str "a.jpg")), some (str "a.jpg"),
      false, false, [], none⟩
    (urlStr (str "h") cfg0.CacheFolder (str "a.jpg"))
    (by decide) rfl rfl

theorem cacheFile_request_served_witness :
    handleRequest (str "GET") (str "/" ++ cfg0.CacheFolder ++ str "/" ++ str "a.jpg")
        (str "h") cfg0 fsOne 0 lenv0 env0 =
      (match lookupFile fsOne.cacheFiles (str "a.jpg") with
       | some content => HResult.fileServed content
       | none => HResult.notFound) :=
  (cacheFile_request_served (str "h") (str "a.jpg") cfg0 fsOne 0 lenv0 env0
    (by decide) (by decide) (by decide) (by decide) (by decide) rfl).1
    ⟨str "a", str "jpg", rfl, by decide⟩
